import Mathlib

set_option maxRecDepth 10000

/-!
Shallow embedding of the PiStorage class (pi-storage repository, `script.js`).

JavaScript strings are modelled as their sequence of UTF-16 code units
(`List Nat`).  JavaScript numbers appearing in the code are non-negative
integers except where the API can receive negative values (`decode`'s
`start`/`length` and the derived `maxDigits`), which are modelled as `Int`.

`Math.random()` draws are modelled by an explicit stream `rnd : Nat → Fin 10`
held in the instance state: the source pushes `Math.floor(Math.random() * 10)`,
whose value is always one of 0..9, and each push consumes the next element of
the stream (`rndPos` counts consumed draws).  The `baseDigitsCache` `Map` is
modelled as an association list keyed by the same string key the source builds.
-/

namespace PiStorage

/-- A JavaScript string, as its sequence of UTF-16 code units. -/
abbrev JSString := List Nat

/-- Code units of a Lean string literal (all source literals are ASCII). -/
def jsOfString (s : String) : JSString := s.data.map Char.toNat

/-- Seed literal for pi from the constructor. -/
def piSeedStr : String := "3.1415926535897932384626433832795028841971693993751058209749445923078164062862089986280348253421170679"

/-- Seed literal for e from the constructor. -/
def eSeedStr : String := "2.7182818284590452353602874713526624977572470936999595749669676277240766303535475945713821785251664274"

/-- Seed literal for phi from the constructor. -/
def phiSeedStr : String := "1.6180339887498948482045868343656381177203091798057628621354486227052604628189024497072072041893911374"

/-- The `this.constants` object: name → seed string. -/
def constants : List (String × String) := [("pi", piSeedStr), ("e", eSeedStr), ("phi", phiSeedStr)]

/-- Property/`Map` lookup on a string-keyed object, first match wins. -/
def jsMapGet {α : Type} (k : String) : List (String × α) → Option α
  | [] => none
  | (k', v) :: rest => if k' = k then some v else jsMapGet k rest

/-- Mutable state of a `PiStorage` instance together with the source of
`Math.random()` draws. -/
structure PiState where
  rnd : Nat → Fin 10
  rndPos : Nat
  baseDigitsCache : List (String × List Nat)

/-- A freshly constructed `PiStorage` instance (empty cache) whose future
`Math.random()` draws are the stream `rnd`. -/
def initState (rnd : Nat → Fin 10) : PiState := PiState.mk rnd 0 []

/-- JS `String.fromCharCode` applied to one integer: ToUint16 conversion. -/
def fromCharCode (num : Nat) : Nat := num % 65536

/-- JS `parseInt` on a single decimal-digit character (the only characters it
is applied to in the source are `'0'`..`'9'` from the seed strings). -/
def jsParseInt1 (c : Char) : Nat := c.toNat - 48

/-- JS `"...".replace('.', '')`: remove the first occurrence of a character. -/
def removeFirst (c : Char) : List Char → List Char
  | [] => []
  | x :: xs => if x = c then xs else x :: removeFirst c xs

/-- Source `getConstantInBase(constant, base, maxDigits = 10000)`.

The cache is consulted first (key includes `maxDigits`).  On a miss the seed
string is stripped of its decimal point and each decimal digit is pushed
as-is — the `base === 10` branch and its else-branch push the same value —
and the array is then extended with `Math.floor(Math.random() * 10)` draws
until it holds `maxDigits` elements.  The result is cached and returned. -/
def getConstantInBase (constant : String) (base : Int) (maxDigits : Int) (st : PiState) :
    Except String (List Nat) × PiState :=
  let cacheKey := constant ++ "_" ++ toString base ++ "_" ++ toString maxDigits
  match jsMapGet cacheKey st.baseDigitsCache with
  | some cached => (.ok cached, st)
  | none =>
    match jsMapGet constant constants with
    | none => (.error ("Unknown constant: " ++ constant), st)
    | some constStr =>
      let constantDigits := removeFirst '.' constStr.data
      let fromSeed := constantDigits.map fun digit =>
        let digitValue := jsParseInt1 digit
        if base = 10 then digitValue else digitValue
      let needed := (maxDigits - (fromSeed.length : Int)).toNat
      let extension := (List.range needed).map fun i => (st.rnd (st.rndPos + i)).val
      let result := fromSeed ++ extension
      (.ok result,
       PiState.mk st.rnd (st.rndPos + needed) ((cacheKey, result) :: st.baseDigitsCache))

/-- Source `messageToNumbers`: `charCodeAt(i)` of each position, i.e. the code
units themselves, in order. -/
def messageToNumbers (message : JSString) : List Nat := message.map fun c => c

/-- Source `numbersToMessage`: `String.fromCharCode` of each number. -/
def numbersToMessage (numbers : List Nat) : JSString := numbers.map fromCharCode

/-- Result object of `findOptimalSequence` and `encode`. -/
structure FindResult where
  constant : String
  base : Int
  start : Nat
  length : Nat
  found : Bool
deriving DecidableEq

/-- The inner `for (let i ...)` loop of `findOptimalSequence`: do the digits
starting at `start` coincide with `messageNumbers` element-wise? -/
def matchesAt (constantDigits messageNumbers : List Nat) (start : Nat) : Bool :=
  (List.range messageNumbers.length).all fun i =>
    constantDigits.getD (start + i) 0 == messageNumbers.getD i 0

/-- Source `findOptimalSequence(message, constant = 'pi', base = 16)` (both
callers pass the parameters explicitly).  Scans start offsets
`0 ≤ start < constantDigits.length - messageNumbers.length` for the first
element-wise match; when none exists it returns the fabricated
`found: false` object with `start: 0` and `length: message.length * 2`. -/
def findOptimalSequence (message : JSString) (constant : String) (base : Int) (st : PiState) :
    Except String FindResult × PiState :=
  let messageNumbers := messageToNumbers message
  match getConstantInBase constant base 10000 st with
  | (.error e, st') => (.error e, st')
  | (.ok constantDigits, st') =>
    match (List.range (constantDigits.length - messageNumbers.length)).find?
        (fun s => matchesAt constantDigits messageNumbers s) with
    | some start => (.ok (FindResult.mk constant base start messageNumbers.length true), st')
    | none => (.ok (FindResult.mk constant base 0 (message.length * 2) false), st')

/-- One digit character of the native `Number.prototype.toString(radix)`
(lowercase letters). -/
def jsToStringDigit (r : Nat) : Nat := if r < 10 then 48 + r else 97 + r - 10

/-- Digit loop of the native `Number.prototype.toString(radix)`; `fuel` is an
upper bound on the number of iterations (the value itself suffices). -/
def jsToStringDigits (base : Nat) : Nat → Nat → List Nat
  | 0, _ => []
  | fuel + 1, n =>
    if n = 0 then [] else jsToStringDigits base fuel (n / base) ++ [jsToStringDigit (n % base)]

/-- Native `Number.prototype.toString(radix)` on a non-negative integer:
throws a `RangeError` for a radix outside 2..36. -/
def jsToString (n : Nat) (base : Int) : Except String JSString :=
  if base < 2 ∨ 36 < base then .error "toString() radix must be between 2 and 36"
  else if n = 0 then .ok [48]
  else .ok (jsToStringDigits base.toNat n n)

/-- One iteration of `encode`'s nested candidate loop, including the
`try`/`catch` that skips a combination when `findOptimalSequence` or the
radix conversion throws.  The accumulator pairs the current
`(bestLength, bestResult)` (`none` models `bestLength = Infinity`,
`bestResult = null`) with the instance state. -/
def encodeStep (message : JSString) (acc : Option (Nat × FindResult) × PiState)
    (cb : String × Int) : Option (Nat × FindResult) × PiState :=
  match findOptimalSequence message cb.1 cb.2 acc.2 with
  | (.error _, st') => (acc.1, st')
  | (.ok result, st') =>
    match jsToString result.start cb.2, jsToString result.length cb.2 with
    | .ok startStr, .ok lengthStr =>
      let encodingSize := startStr.length + lengthStr.length
      match acc.1 with
      | none => (some (encodingSize, result), st')
      | some best =>
        if encodingSize < best.1 then (some (encodingSize, result), st') else (some best, st')
    | _, _ => (acc.1, st')

/-- Row-major enumeration of `encode`'s nested candidate loops
`for (let constant of ['pi', 'e', 'phi'])` × `for (let base of [16, 32, 64, 256])`. -/
def encodeCombos : List (String × Int) :=
  [("pi", 16), ("pi", 32), ("pi", 64), ("pi", 256),
   ("e", 16), ("e", 32), ("e", 64), ("e", 256),
   ("phi", 16), ("phi", 32), ("phi", 64), ("phi", 256)]

/-- Source `encode(message)`: empty-message check, then the nested
constants × bases candidate loop, then the `bestResult` null check. -/
def encode (message : JSString) (st : PiState) : Except String FindResult × PiState :=
  if message.length = 0 then (.error "Message cannot be empty", st)
  else
    match encodeCombos.foldl (encodeStep message) (none, st) with
    | (none, st') => (.error "Could not encode message", st')
    | (some best, st') => (.ok best.2, st')

/-- Resolve one index argument of JS `Array.prototype.slice` against a length:
negative indices count from the end, then clamp into `[0, len]`. -/
def jsSliceIndex (len : Nat) (i : Int) : Nat :=
  if i < 0 then ((len : Int) + i).toNat else min i.toNat len

/-- JS `Array.prototype.slice(s, e)`. -/
def jsSlice (l : List Nat) (s e : Int) : List Nat :=
  (l.take (jsSliceIndex l.length e)).drop (jsSliceIndex l.length s)

/-- Source `decode(constant, base, start, length)`: own unknown-constant check,
then `getConstantInBase(constant, base, start + length)`, then
`slice(start, start + length)` and `numbersToMessage`.  There is no base
validation and no negativity check anywhere on this path. -/
def decode (constant : String) (base : Int) (start length : Int) (st : PiState) :
    Except String JSString × PiState :=
  match jsMapGet constant constants with
  | none => (.error ("Unknown constant: " ++ constant), st)
  | some _ =>
    match getConstantInBase constant base (start + length) st with
    | (.error e, st') => (.error e, st')
    | (.ok constantDigits, st') =>
      (.ok (numbersToMessage (jsSlice constantDigits start (start + length))), st')

/-- The digit generator's value at 1-indexed fractional position `n`: the
source exposes the stream through `getConstantInBase`, whose array holds the
integer-part digit at index 0, so fractional position `n` is array index `n`
(the source's default depth 10000 is used). -/
def digitAt (constant : String) (base : Int) (n : Nat) (st : PiState) : Except String Nat :=
  ((getConstantInBase constant base 10000 st).1).map fun digits => digits.getD n 0

/-- Every digit of the list is a decimal digit value. -/
def digitsBounded (l : List Nat) : Prop := ∀ d ∈ l, d < 10

/-- Every cached digit array consists of decimal digit values. -/
def WellFormedCache (st : PiState) : Prop := ∀ p ∈ st.baseDigitsCache, digitsBounded p.2

/-- The all-zeros random stream. -/
def zeroStream : Nat → Fin 10 := fun _ => 0

/-- The all-fives random stream. -/
def fiveStream : Nat → Fin 10 := fun _ => 5

/-- A stream whose first draw is 0 and whose later draws are 7. -/
def mixedStream : Nat → Fin 10 := fun n => if n = 0 then 0 else 7

/-- A stream that yields 0 for the draws `encode` consumes on a three-unit
message (12 cache misses × 9899 extension draws) and 5 afterwards. -/
def switchStream : Nat → Fin 10 := fun n => if n < 118788 then 0 else 5

/-- The digit character pushed by one iteration of `numberToBase`'s loop:
decimal digits and uppercase letters for base ≤ 36, otherwise
`String.fromCharCode(remainder)`. -/
def numberToBaseDigit (base remainder : Nat) : Nat :=
  if base ≤ 36 then
    (if remainder < 10 then 48 + remainder else fromCharCode (65 + remainder - 10))
  else fromCharCode remainder

/-- The `while (number > 0)` loop of `numberToBase`, unshifting one digit per
iteration; `fuel` bounds the iteration count (the starting value suffices,
since each step divides by a base of at least 2). -/
def numberToBaseDigits (base : Nat) : Nat → Nat → List Nat
  | 0, _ => []
  | fuel + 1, number =>
    if number = 0 then []
    else numberToBaseDigits base fuel (number / base) ++ [numberToBaseDigit base (number % base)]

/-- Source `numberToBase(number, base)`: base-range check, `0` rendered as the
single character `'0'`, otherwise the digit loop, most-significant first. -/
def numberToBase (number base : Nat) : Except String JSString :=
  if base < 2 ∨ 65536 < base then .error "Base must be between 2 and 65536"
  else if number = 0 then .ok [48]
  else .ok (numberToBaseDigits base number number)

/-- One character's value in `baseToNumber`: for base ≤ 36 decimal digits,
uppercase and lowercase letters are accepted and anything else throws; above
base 36 the character's code unit is the value, unchecked. -/
def baseToNumberDigit (base c : Nat) : Except String Nat :=
  if base ≤ 36 then
    if 48 ≤ c ∧ c ≤ 57 then .ok (c - 48)
    else if 65 ≤ c ∧ c ≤ 90 then .ok (10 + (c - 65))
    else if 97 ≤ c ∧ c ≤ 122 then .ok (10 + (c - 97))
    else .error "Invalid character for base"
  else .ok c

/-- The accumulation loop of `baseToNumber`: `result = result * base + value`. -/
def baseToNumberLoop (base : Nat) : Nat → List Nat → Except String Nat
  | result, [] => .ok result
  | result, c :: rest =>
    match baseToNumberDigit base c with
    | .error e => .error e
    | .ok value => baseToNumberLoop base (result * base + value) rest

/-- Source `baseToNumber(string, base)`: base-range check then the
character-by-character accumulation. -/
def baseToNumber (s : JSString) (base : Nat) : Except String Nat :=
  if base < 2 ∨ 65536 < base then .error "Base must be between 2 and 65536"
  else baseToNumberLoop base 0 s

/-- The pure shadow of `encodeStep` on a message no candidate search can find:
the state drops out and the fabricated fallback result of
`findOptimalSequence` feeds the encoding-size bookkeeping. -/
def pureStep (message : JSString) (best : Option (Nat × FindResult)) (cb : String × Int) :
    Option (Nat × FindResult) :=
  let result := FindResult.mk cb.1 cb.2 0 (message.length * 2) false
  match jsToString result.start cb.2, jsToString result.length cb.2 with
  | .ok startStr, .ok lengthStr =>
    let encodingSize := startStr.length + lengthStr.length
    match best with
    | none => some (encodingSize, result)
    | some b => if encodingSize < b.1 then some (encodingSize, result) else some b
  | _, _ => best

end PiStorage

deriving instance DecidableEq for Except

namespace PiStorage

theorem jsMapGet_mem {α : Type} {k : String} {v : α} :
    ∀ {l : List (String × α)}, jsMapGet k l = some v → (k, v) ∈ l := by
  intro l
  induction l with
  | nil => intro h; cases h
  | cons p rest ih =>
    intro h
    obtain ⟨k', v'⟩ := p
    by_cases hk : k' = k
    · subst hk
      simp [jsMapGet] at h
      subst h
      exact List.mem_cons_self _ _
    · simp [jsMapGet, hk] at h
      exact List.mem_cons_of_mem _ (ih h)

theorem getD_lt_of_bounded {l : List Nat} (h : digitsBounded l) (j : Nat) : l.getD j 0 < 10 := by
  induction l generalizing j with
  | nil => simp [List.getD]
  | cons x xs ih =>
    cases j with
    | zero => exact h x (List.mem_cons_self _ _)
    | succ j' => exact ih (fun d hd => h d (List.mem_cons_of_mem _ hd)) j'

theorem seed_digits_bounded :
    ∀ p ∈ constants, digitsBounded ((removeFirst '.' p.2.data).map jsParseInt1) := by
  simp only [digitsBounded]
  decide

theorem messageToNumbers_eq (m : JSString) : messageToNumbers m = m := List.map_id' m

theorem getConstantInBase_ok {c : String} (b m : Int) (st : PiState)
    (hc : (jsMapGet c constants).isSome) :
    ∃ d st2, getConstantInBase c b m st = (.ok d, st2) := by
  unfold getConstantInBase
  cases hcache : jsMapGet (c ++ "_" ++ toString b ++ "_" ++ toString m) st.baseDigitsCache with
  | some cached => exact ⟨cached, st, by simp only [hcache]⟩
  | none =>
    cases hlk : jsMapGet c constants with
    | none => rw [hlk] at hc; cases hc
    | some constStr =>
      simp only [hcache, hlk]
      exact ⟨_, _, rfl⟩

theorem getConstantInBase_bounded {c : String} {b m : Int} {st : PiState} {d : List Nat}
    {st2 : PiState} (hwf : WellFormedCache st)
    (h : getConstantInBase c b m st = (.ok d, st2)) :
    digitsBounded d ∧ WellFormedCache st2 := by
  unfold getConstantInBase at h
  cases hcache : jsMapGet (c ++ "_" ++ toString b ++ "_" ++ toString m) st.baseDigitsCache with
  | some cached =>
    simp only [hcache, Prod.mk.injEq, Except.ok.injEq] at h
    obtain ⟨hd, hst⟩ := h
    subst hd; subst hst
    exact ⟨hwf _ (jsMapGet_mem hcache), hwf⟩
  | none =>
    cases hlk : jsMapGet c constants with
    | none => simp only [hcache, hlk] at h; simp at h
    | some constStr =>
      simp only [hcache, hlk, Prod.mk.injEq, Except.ok.injEq] at h
      obtain ⟨hd, hst⟩ := h
      have hseed : digitsBounded ((removeFirst '.' constStr.data).map
          (fun digit => if b = 10 then jsParseInt1 digit else jsParseInt1 digit)) := by
        simp only [ite_self]
        exact seed_digits_bounded _ (jsMapGet_mem hlk)
      have hbd : digitsBounded d := by
        rw [← hd]
        intro x hx
        rcases List.mem_append.mp hx with hx1 | hx2
        · exact hseed x hx1
        · obtain ⟨i, _, hval⟩ := List.mem_map.mp hx2
          rw [← hval]
          exact (st.rnd (st.rndPos + i)).isLt
      refine ⟨hbd, ?_⟩
      rw [← hst]
      intro p hp
      rcases List.mem_cons.mp hp with hp1 | hp2
      · rw [hp1]
        exact hd.symm ▸ hbd
      · exact hwf p hp2

theorem matchesAt_false_of_big {digits target : List Nat} (hbd : digitsBounded digits)
    {i : Nat} (hi : i < target.length) (hbig : 10 ≤ target.getD i 0) (s : Nat) :
    matchesAt digits target s = false := by
  cases h : matchesAt digits target s with
  | false => rfl
  | true =>
    exfalso
    unfold matchesAt at h
    have := List.all_eq_true.mp h i (List.mem_range.mpr hi)
    have heq : digits.getD (s + i) 0 = target.getD i 0 := by simpa using this
    have hlt := getD_lt_of_bounded hbd (s + i)
    omega

theorem findOptimalSequence_fallback {message : JSString} {c : String} (b : Int) {st : PiState}
    (hwf : WellFormedCache st) (hc : (jsMapGet c constants).isSome)
    (hbig : ∃ ch ∈ message, 10 ≤ ch) :
    ∃ st2, findOptimalSequence message c b st
        = (.ok (FindResult.mk c b 0 (message.length * 2) false), st2)
      ∧ WellFormedCache st2 := by
  obtain ⟨d, st2, hget⟩ := getConstantInBase_ok b 10000 st hc
  obtain ⟨hbd, hwf2⟩ := getConstantInBase_bounded hwf hget
  refine ⟨st2, ?_, hwf2⟩
  obtain ⟨ch, hch, hbigch⟩ := hbig
  obtain ⟨i, hi, hchv⟩ := List.mem_iff_getElem.mp hch
  have hbigi : 10 ≤ message.getD i 0 := by
    rw [List.getD_eq_getElem _ _ hi, hchv]; exact hbigch
  have hall : ∀ s, matchesAt d message s = false :=
    matchesAt_false_of_big hbd hi hbigi
  have hnone : (List.range (d.length - message.length)).find?
      (fun s => matchesAt d message s) = none :=
    List.find?_eq_none.mpr (fun s _ => by simp [hall s])
  unfold findOptimalSequence
  rw [messageToNumbers_eq, hget]
  simp only [hnone]

theorem encodeStep_fallback {message : JSString} (best : Option (Nat × FindResult)) (st : PiState)
    (c : String) (b : Int) (hwf : WellFormedCache st) (hc : (jsMapGet c constants).isSome)
    (hbig : ∃ ch ∈ message, 10 ≤ ch) :
    ∃ st2, encodeStep message (best, st) (c, b) = (pureStep message best (c, b), st2)
      ∧ WellFormedCache st2 := by
  obtain ⟨st2, hfind, hwf2⟩ := findOptimalSequence_fallback b hwf hc hbig
  refine ⟨st2, ?_, hwf2⟩
  unfold encodeStep pureStep
  simp only [hfind]
  cases jsToString 0 b with
  | error e1 => cases jsToString (message.length * 2) b <;> rfl
  | ok s1 =>
    cases jsToString (message.length * 2) b with
    | error e2 => rfl
    | ok s2 =>
      cases best with
      | none => rfl
      | some bb => by_cases h : s1.length + s2.length < bb.1 <;> simp [h]

theorem foldl_encodeStep_fallback {message : JSString} (hbig : ∃ ch ∈ message, 10 ≤ ch) :
    ∀ (combos : List (String × Int)) (best : Option (Nat × FindResult)) (st : PiState),
      WellFormedCache st → (∀ cb ∈ combos, (jsMapGet cb.1 constants).isSome) →
      ∃ st2, combos.foldl (encodeStep message) (best, st)
          = (combos.foldl (pureStep message) best, st2) ∧ WellFormedCache st2 := by
  intro combos
  induction combos with
  | nil => exact fun best st hwf _ => ⟨st, rfl, hwf⟩
  | cons cb rest ih =>
    intro best st hwf hcs
    obtain ⟨c, b⟩ := cb
    obtain ⟨st2, hstep, hwf2⟩ :=
      encodeStep_fallback best st c b hwf (hcs (c, b) (List.mem_cons_self _ _)) hbig
    obtain ⟨st3, hfold, hwf3⟩ := ih (pureStep message best (c, b)) st2 hwf2
      (fun cb' h => hcs cb' (List.mem_cons_of_mem _ h))
    exact ⟨st3, by simp only [List.foldl_cons, hstep, hfold], hwf3⟩

theorem initState_wellFormed (rnd : Nat → Fin 10) : WellFormedCache (initState rnd) := by
  intro p hp
  cases hp

theorem getD_append_left {l1 l2 : List Nat} {n : Nat} (h : n < l1.length) :
    (l1 ++ l2).getD n 0 = l1.getD n 0 := by
  simp [List.getD, List.getElem?_append, h]

theorem jsMapGet_nil {α : Type} (k : String) : jsMapGet k ([] : List (String × α)) = none := rfl

theorem getConstantInBase_initState_seed (rnd : Nat → Fin 10) {c : String} (b m : Int)
    {s : String} (hlk : jsMapGet c constants = some s) :
    ∃ ext, (getConstantInBase c b m (initState rnd)).1
      = .ok ((removeFirst '.' s.data).map jsParseInt1 ++ ext) := by
  unfold getConstantInBase
  simp only [initState, jsMapGet_nil, hlk, ite_self]
  exact ⟨_, rfl⟩

theorem baseToNumberLoop_append (base : Nat) (l1 l2 : List Nat) :
    ∀ acc, baseToNumberLoop base acc (l1 ++ l2)
      = match baseToNumberLoop base acc l1 with
        | .ok r => baseToNumberLoop base r l2
        | .error e => .error e := by
  induction l1 with
  | nil => intro acc; rfl
  | cons c rest ih =>
    intro acc
    simp only [List.cons_append, baseToNumberLoop]
    cases baseToNumberDigit base c with
    | error e => rfl
    | ok v => exact ih _

theorem baseToNumberDigit_numberToBaseDigit {base r : Nat} (h6 : base ≤ 65536)
    (hr : r < base) : baseToNumberDigit base (numberToBaseDigit base r) = .ok r := by
  unfold baseToNumberDigit numberToBaseDigit fromCharCode
  split_ifs <;> congr 1 <;> omega

theorem baseToNumberLoop_numberToBaseDigits {base : Nat} (h2 : 2 ≤ base) (h6 : base ≤ 65536) :
    ∀ fuel n acc, n ≤ fuel →
      baseToNumberLoop base acc (numberToBaseDigits base fuel n)
        = .ok (acc * base ^ (numberToBaseDigits base fuel n).length + n) := by
  intro fuel
  induction fuel with
  | zero =>
    intro n acc hn
    have h0 : n = 0 := Nat.le_zero.mp hn
    subst h0
    simp [numberToBaseDigits, baseToNumberLoop]
  | succ fuel ih =>
    intro n acc hn
    by_cases h0 : n = 0
    · subst h0
      simp [numberToBaseDigits, baseToNumberLoop]
    · have hdiv : n / base ≤ fuel := by
        have := Nat.div_lt_self (Nat.pos_of_ne_zero h0) (by omega : 1 < base)
        omega
      have hmod : n % base < base := Nat.mod_lt _ (by omega)
      simp only [numberToBaseDigits, if_neg h0]
      rw [baseToNumberLoop_append, ih (n / base) acc hdiv]
      simp only [baseToNumberLoop, baseToNumberDigit_numberToBaseDigit h6 hmod,
        List.length_append, List.length_cons, List.length_nil, Nat.zero_add]
      congr 1
      have hnm : n / base * base + n % base = n := Nat.div_add_mod' n base
      rw [pow_succ]
      generalize base ^ (numberToBaseDigits base fuel (n / base)).length = B
      calc (acc * B + n / base) * base + n % base
          = acc * (B * base) + (n / base * base + n % base) := by ring
        _ = acc * (B * base) + n := by rw [hnm]

/-- Claim C1.  The claim asserts `decode(t.constant, t.base, t.start, t.length) == m`
whenever `encode(m)` succeeds with tuple `t`.  In the code the digit stream
beyond the 101 seed digits is `Math.random()` filler and `decode` recomputes
it under a different cache key, so the decoded text depends on the random
draws rather than on the tuple: the same tuple `("pi", 16, 101, 3)` decodes
to different messages under different draw streams, which breaks the
round-trip for any message whose matched position reaches past the seed. -/
theorem decode_result_depends_on_random_draws :
    (decode "pi" 16 101 3 (initState zeroStream)).1
      ≠ (decode "pi" 16 101 3 (initState fiveStream)).1 := by
  decide

/-- Claim C2.  The claim asserts that when no candidate search finds the message,
`encode` fails with `SequenceNotFound` and never returns a fabricated tuple.
In the code `findOptimalSequence` fabricates `{start: 0, length: 2·len,
found: false}` on a miss and `encode` never inspects `found`, so for the
unmatchable message `"A"` (code point 65 can never equal a decimal digit)
`encode` returns that fabricated tuple instead of failing. -/
theorem encode_returns_fabricated_tuple_instead_of_failing (st : PiState)
    (hwf : WellFormedCache st) :
    (encode (jsOfString "A") st).1 = .ok (FindResult.mk "pi" 16 0 2 false) := by
  have hbig : ∃ ch ∈ jsOfString "A", 10 ≤ ch := ⟨65, by decide, by decide⟩
  obtain ⟨st2, hfold, _⟩ := foldl_encodeStep_fallback hbig encodeCombos none st hwf (by decide)
  unfold encode
  rw [if_neg (by decide : ¬(jsOfString "A").length = 0), hfold,
    show encodeCombos.foldl (pureStep (jsOfString "A")) none
      = some (2, FindResult.mk "pi" 16 0 2 false) from by decide]

theorem encode_returns_fabricated_tuple_instead_of_failing_witness :
    (encode (jsOfString "A") (initState zeroStream)).1 = .ok (FindResult.mk "pi" 16 0 2 false) :=
  encode_returns_fabricated_tuple_instead_of_failing (initState zeroStream)
    (initState_wellFormed zeroStream)

/-- Claim C3.  The claim asserts the digit generator is a deterministic function of
`(constant, base, n)` with no randomness.  The code extends the seed with
`Math.floor(Math.random() * 10)` draws, so identical arguments yield
different digit sequences under different draw streams. -/
theorem getConstantInBase_depends_on_random_stream :
    (getConstantInBase "pi" 10 102 (initState zeroStream)).1
      ≠ (getConstantInBase "pi" 10 102 (initState fiveStream)).1 := by
  decide

/-- Claim C4.  Every element of the digit stream produced by `getConstantInBase`
lies in `[0, 9]` regardless of the requested base (seed digits are decimal
and the random extension draws are `Math.floor(Math.random() * 10)`), and
consequently `findOptimalSequence` on a message containing a code point
`≥ 10` never finds a match and returns the `found: false` fallback for every
constant of the enumerated set and every base. -/
theorem digit_stream_decimal_bounded_and_misses_large_codepoints
    (message : JSString) (c : String) (b maxDigits : Int) (st : PiState)
    (hwf : WellFormedCache st) (hc : (jsMapGet c constants).isSome)
    (hbig : ∃ ch ∈ message, 10 ≤ ch) :
    (∀ digits st2, getConstantInBase c b maxDigits st = (.ok digits, st2) →
      digitsBounded digits)
    ∧ (findOptimalSequence message c b st).1
        = .ok (FindResult.mk c b 0 (message.length * 2) false) := by
  constructor
  · intro digits st2 h
    exact (getConstantInBase_bounded hwf h).1
  · obtain ⟨st2, hf, _⟩ := findOptimalSequence_fallback b hwf hc hbig
    rw [hf]

theorem digit_stream_decimal_bounded_and_misses_large_codepoints_witness :
    (findOptimalSequence (jsOfString "A") "pi" 16 (initState zeroStream)).1
      = .ok (FindResult.mk "pi" 16 0 2 false) :=
  (digit_stream_decimal_bounded_and_misses_large_codepoints (jsOfString "A") "pi" 16 10000
    (initState zeroStream) (initState_wellFormed zeroStream) (by decide)
    ⟨65, by decide, by decide⟩).2

/-- Claim C5.  The claim asserts that requesting the stream to depth `k` and then to
depth `k + j` yields identical first `k` digits.  In the code the cache key
includes `maxDigits`, so the second request recomputes the stream from
scratch with fresh random draws: on the same instance, depth 102 followed by
depth 103 produces 102-digit prefixes that differ at position 101. -/
theorem cached_prefixes_recomputed_differently :
    ((getConstantInBase "pi" 10 102 (initState mixedStream)).1.map (fun l => l.take 102))
      ≠ ((getConstantInBase "pi" 10 103
            (getConstantInBase "pi" 10 102 (initState mixedStream)).2).1.map
          (fun l => l.take 102)) := by
  decide

/-- Claim C6, counterexample.  The claim asserts `decode("pi", 10, -1, 3)` fails with
`RangeError`; in the code there is no negativity check and the negative
start index is resolved by `Array.prototype.slice` to an empty slice, so the
call succeeds and returns the empty string. -/
theorem decode_negative_start_silently_returns_empty :
    (decode "pi" 10 (-1) 3 (initState zeroStream)).1 = .ok [] := by
  decide

/-- Claim C6, amended.  `decode` fails with `Unknown constant: …` when the constant
is not in the enumerated set (in particular for `"xi"`), but it performs no
base validation and no range validation: a base far outside 2..65536 is
accepted, and a negative `start` silently yields the empty string. -/
theorem decode_validates_only_the_constant (c : String) (b s l : Int) (st : PiState)
    (hc : jsMapGet c constants = none) :
    (decode c b s l st).1 = .error ("Unknown constant: " ++ c)
    ∧ (decode "pi" 10 (-1) 3 (initState zeroStream)).1 = .ok []
    ∧ (decode "pi" 70000 0 3 (initState zeroStream)).1 = .ok [3, 1, 4] := by
  refine ⟨?_, by decide, by decide⟩
  unfold decode
  rw [hc]

theorem decode_validates_only_the_constant_witness :
    (decode "xi" 10 0 3 (initState zeroStream)).1 = .error ("Unknown constant: " ++ "xi")
    ∧ (decode "pi" 10 (-1) 3 (initState zeroStream)).1 = .ok []
    ∧ (decode "pi" 70000 0 3 (initState zeroStream)).1 = .ok [3, 1, 4] :=
  decode_validates_only_the_constant "xi" 10 0 3 (initState zeroStream) (by decide)

/-- Claim C7.  The digit generator applied to pi in base 10 yields 1, 4, 1, 5 at
1-indexed fractional positions 1 through 4 (the stream's index 0 holds the
integer-part digit 3), for every random draw stream: these positions lie in
the deterministic seed region. -/
theorem digitAt_pi_first_four_fractional_digits (rnd : Nat → Fin 10) :
    digitAt "pi" 10 1 (initState rnd) = .ok 1 ∧ digitAt "pi" 10 2 (initState rnd) = .ok 4
    ∧ digitAt "pi" 10 3 (initState rnd) = .ok 1 ∧ digitAt "pi" 10 4 (initState rnd) = .ok 5 := by
  obtain ⟨ext, hext⟩ := getConstantInBase_initState_seed rnd 10 10000
    (show jsMapGet "pi" constants = some piSeedStr from rfl)
  refine ⟨?_, ?_, ?_, ?_⟩ <;>
    · unfold digitAt
      rw [hext]
      simp only [Except.map]
      rw [getD_append_left (by decide)]
      decide

theorem digitAt_pi_first_four_fractional_digits_witness :
    digitAt "pi" 10 1 (initState zeroStream) = .ok 1
    ∧ digitAt "pi" 10 2 (initState zeroStream) = .ok 4
    ∧ digitAt "pi" 10 3 (initState zeroStream) = .ok 1
    ∧ digitAt "pi" 10 4 (initState zeroStream) = .ok 5 :=
  digitAt_pi_first_four_fractional_digits zeroStream

/-- Claim C8, counterexample.  The claim asserts the base codec round-trip is the
identity for every `value ≥ 0` and `2 ≤ base ≤ 65536`.  At `value = 0` and
`base = 37` the rendering is the character `'0'` (code unit 48) and
`baseToNumber` above base 36 reads the raw code unit, so the round-trip
returns 48, not 0. -/
theorem base_codec_roundtrip_fails_at_zero_base37 :
    ((numberToBase 0 37).bind fun s => baseToNumber s 37) ≠ .ok 0 := by
  decide

/-- Claim C8, amended.  The round-trip `baseToNumber(numberToBase(value, base), base)
== value` holds for every `2 ≤ base ≤ 65536` whenever `value ≥ 1`, and also
at `value = 0` when `base ≤ 36`; `value = 0` is rendered as the single digit
`'0'` for every base in range (for `base > 36` the round-trip of 0 instead
returns 48, the code unit of `'0'`). -/
theorem numberToBase_baseToNumber_roundtrip (value base : Nat) (h2 : 2 ≤ base)
    (h6 : base ≤ 65536) (h : base ≤ 36 ∨ 0 < value) :
    ((numberToBase value base).bind fun s => baseToNumber s base) = .ok value
    ∧ numberToBase 0 base = .ok [48] := by
  have hrange : ¬(base < 2 ∨ 65536 < base) := by omega
  constructor
  · unfold numberToBase
    rw [if_neg hrange]
    by_cases h0 : value = 0
    · subst h0
      rw [if_pos rfl]
      show baseToNumber [48] base = .ok 0
      have hb : base ≤ 36 := by
        rcases h with h | h
        · exact h
        · omega
      unfold baseToNumber baseToNumberLoop baseToNumberDigit
      rw [if_neg hrange]
      simp [hb, baseToNumberLoop]
    · rw [if_neg h0]
      show baseToNumber (numberToBaseDigits base value value) base = .ok value
      unfold baseToNumber
      rw [if_neg hrange,
        baseToNumberLoop_numberToBaseDigits h2 h6 value value 0 (Nat.le_refl value)]
      simp
  · unfold numberToBase
    rw [if_neg hrange, if_pos rfl]

theorem numberToBase_baseToNumber_roundtrip_witness :
    ((numberToBase 7 256).bind fun s => baseToNumber s 256) = .ok 7
    ∧ numberToBase 0 256 = .ok [48] :=
  numberToBase_baseToNumber_roundtrip 7 256 (by decide) (by decide) (Or.inr (by decide))

/-- Claim C9.  The scan in `findOptimalSequence` only examines start offsets `s`
with `s + len(target) < streamLength` (strict, from the loop bound
`start < constantDigits.length - messageNumbers.length`): whenever every
such interior offset fails to match — even if the target occurs ending
exactly at the stream's last digit, or is exactly as long as the stream —
the fabricated `found: false` fallback is returned. -/
theorem findOptimalSequence_ignores_boundary_occurrence
    (message : JSString) (c : String) (b : Int) (st : PiState)
    (hc : (jsMapGet c constants).isSome)
    (h : ∀ digits st2, getConstantInBase c b 10000 st = (.ok digits, st2) →
      ∀ s, s + message.length < digits.length → matchesAt digits message s = false) :
    (findOptimalSequence message c b st).1
      = .ok (FindResult.mk c b 0 (message.length * 2) false) := by
  obtain ⟨d, st2, hget⟩ := getConstantInBase_ok b 10000 st hc
  have hall := h d st2 hget
  have hnone : (List.range (d.length - message.length)).find?
      (fun s => matchesAt d message s) = none :=
    List.find?_eq_none.mpr (fun s hs => by
      have hlt := List.mem_range.mp hs
      have hsl : s + message.length < d.length := by omega
      simp [hall s hsl])
  unfold findOptimalSequence
  rw [messageToNumbers_eq, hget]
  simp only [hnone]

theorem findOptimalSequence_ignores_boundary_occurrence_witness :
    (findOptimalSequence (jsOfString "A") "e" 32 (initState zeroStream)).1
      = .ok (FindResult.mk "e" 32 0 2 false) := by
  apply findOptimalSequence_ignores_boundary_occurrence
  · decide
  · intro digits st2 hget s _
    have hbd := (getConstantInBase_bounded (initState_wellFormed zeroStream) hget).1
    exact matchesAt_false_of_big hbd
      (by decide : (0 : Nat) < (jsOfString "A").length)
      (by decide : 10 ≤ (jsOfString "A").getD 0 0) s

/-- Claim C10.  `encode` fails with the empty-message error whenever the input has
zero length, leaving the instance state untouched. -/
theorem encode_rejects_empty_message (message : JSString) (st : PiState)
    (h : message.length = 0) :
    encode message st = (.error "Message cannot be empty", st) := by
  unfold encode
  rw [if_pos h]

theorem encode_rejects_empty_message_witness :
    encode [] (initState zeroStream) = (.error "Message cannot be empty", initState zeroStream) :=
  encode_rejects_empty_message [] (initState zeroStream) rfl

end PiStorage

